import Mathlib

/-!
Verification of the Bookshelf toolkit (bookshelf_analyzer.py,
fixed_elements_visualizer.py, scl_visualizer.py) against its
natural-language specification.  The Python readers are shallowly
embedded: each reader becomes a step function over a state record,
run line-by-line; a Python exception that escapes to the reader's
try/except boundary is modelled with `Except.error` carrying the
state accumulated so far (the Python handler prints and then returns
the local variables as they stand).  Machine integers are `Int`,
Python floats are modelled as exact rationals.
-/

/-- Python `str.isspace` characters relevant to `.strip()` / `.split()`. -/
def isPySpace (c : Char) : Bool :=
  c == ' ' || c == '\t' || c == '\n' || c == '\r' || c == '\x0b' || c == '\x0c'

/-- Python `str.strip()` on a character list: drop whitespace from both ends. -/
def pyStripChars (l : List Char) : List Char :=
  ((l.dropWhile isPySpace).reverse.dropWhile isPySpace).reverse

/-- Python `str.strip()`. -/
def pyStrip (s : String) : String := ⟨pyStripChars s.data⟩

/-- Helper for `pySplit`: accumulate the current word (reversed) while scanning. -/
def splitAcc (cur : List Char) : List Char → List (List Char)
  | [] => if cur = [] then [] else [cur.reverse]
  | c :: cs =>
    if isPySpace c then
      if cur = [] then splitAcc [] cs else cur.reverse :: splitAcc [] cs
    else splitAcc (c :: cur) cs

/-- Python `str.split()` with no argument: split on whitespace runs, no empties. -/
def pySplit (s : String) : List String := (splitAcc [] s.data).map fun w => ⟨w⟩

/-- Pattern-matching core of Python `str.startswith`. -/
def startsWithChars : List Char → List Char → Bool
  | [], _ => true
  | _ :: _, [] => false
  | p :: ps, c :: cs => p == c && startsWithChars ps cs

/-- Python `s.startswith(pat)`. -/
def pyStartswith (s pat : String) : Bool := startsWithChars pat.data s.data

/-- Digits of a token to a natural number (base 10). -/
def digitsToNat (ds : List Char) : Nat :=
  ds.foldl (fun n c => 10 * n + (c.toNat - 48)) 0

/-- A nonempty all-digit token. -/
def allDigits (ds : List Char) : Bool := !ds.isEmpty && ds.all (·.isDigit)

/-- Python `int(token)` on a whitespace-free token: optional sign then digits;
`none` models a raised `ValueError`. -/
def pyInt? (s : String) : Option Int :=
  match s.data with
  | '-' :: ds => if allDigits ds then some (-(digitsToNat ds : Int)) else none
  | '+' :: ds => if allDigits ds then some ((digitsToNat ds : Int)) else none
  | ds => if allDigits ds then some ((digitsToNat ds : Int)) else none

/-- The exact rational value `m * 10 ^ (ex - fracLen)` of a decimal literal
with digit string value `m`, `fracLen` digits after the point and exponent
`ex`. -/
def pyFloatVal (m : Nat) (fracLen : Nat) (ex : Int) : Rat :=
  let e : Int := ex - fracLen
  if 0 ≤ e then mkRat ((m : Int) * 10 ^ e.toNat) 1 else mkRat (m : Int) (10 ^ (-e).toNat)

/-- Exponent suffix of a float literal applied to mantissa `m` with
`fracLen` fractional digits. -/
def pyFloatExp (m fracLen : Nat) (es : List Char) : Option Rat :=
  match es with
  | '-' :: ds => if allDigits ds then some (pyFloatVal m fracLen (-(digitsToNat ds : Int))) else none
  | '+' :: ds => if allDigits ds then some (pyFloatVal m fracLen (digitsToNat ds)) else none
  | ds => if allDigits ds then some (pyFloatVal m fracLen (digitsToNat ds)) else none

/-- Unsigned part of a float literal: digits, optional fraction, optional exponent. -/
def pyFloatCore (ds : List Char) : Option Rat :=
  let ip := ds.takeWhile (·.isDigit)
  let rest := ds.dropWhile (·.isDigit)
  match rest with
  | [] => if ip.isEmpty then none else some (pyFloatVal (digitsToNat ip) 0 0)
  | '.' :: rest2 =>
    let fp := rest2.takeWhile (·.isDigit)
    let rest3 := rest2.dropWhile (·.isDigit)
    if ip.isEmpty && fp.isEmpty then none
    else
      match rest3 with
      | [] => some (pyFloatVal (digitsToNat (ip ++ fp)) fp.length 0)
      | 'e' :: es => pyFloatExp (digitsToNat (ip ++ fp)) fp.length es
      | 'E' :: es => pyFloatExp (digitsToNat (ip ++ fp)) fp.length es
      | _ => none
  | 'e' :: es => if ip.isEmpty then none else pyFloatExp (digitsToNat ip) 0 es
  | 'E' :: es => if ip.isEmpty then none else pyFloatExp (digitsToNat ip) 0 es
  | _ => none

/-- Python `float(token)` modelled as an exact rational (decimal literals with
optional sign, fraction and exponent; `none` models a raised `ValueError`;
the special values inf/nan are outside the model, no claim touches them). -/
def pyFloat? (s : String) : Option Rat :=
  match s.data with
  | '-' :: ds => (pyFloatCore ds).map (fun q => -q)
  | '+' :: ds => pyFloatCore ds
  | ds => pyFloatCore ds

/-- Lookup in an insertion-ordered association list (Python `dict` model). -/
def alGet? {α : Type} (k : String) : List (String × α) → Option α
  | [] => none
  | (k2, v) :: t => if k2 = k then some v else alGet? k t

/-- Python `d[k] = v`: replace in place if the key exists, else append. -/
def alInsert {α : Type} (k : String) (v : α) : List (String × α) → List (String × α)
  | [] => [(k, v)]
  | (k2, v2) :: t => if k2 = k then (k, v) :: t else (k2, v2) :: alInsert k v t

/-- Update the value stored under `k` in place (used for mutation through an
alias, e.g. `current_net['connections'].append`). -/
def alUpdate {α : Type} (k : String) (f : α → α) : List (String × α) → List (String × α)
  | [] => []
  | (k2, v2) :: t => if k2 = k then (k2, f v2) :: t else (k2, v2) :: alUpdate k f t

/-- Python `Counter`: `c[k] += 1`. -/
def cInc (k : String) : List (String × Nat) → List (String × Nat)
  | [] => [(k, 1)]
  | (k2, n) :: t => if k2 = k then (k2, n + 1) :: t else (k2, n) :: cInc k t

/-- Python `Counter` read (missing key counts 0). -/
def cGet (k : String) (c : List (String × Nat)) : Nat := (alGet? k c).getD 0

/-- Sum of all counter values, `sum(c.values())`. -/
def sumC (c : List (String × Nat)) : Nat := (c.map Prod.snd).sum

/-- Append a key if absent (model of growing a `dict`/`set` key list). -/
def insKey (ks : List String) (k : String) : List String :=
  if k ∈ ks then ks else ks ++ [k]

/-- Run a per-line step over the lines of a file; `Except.error` models a
Python exception escaping to the reader's file-level `try`, carrying the
locals accumulated so far. -/
def runE {σ : Type} (step : σ → String → Except σ σ) : σ → List String → Except σ σ
  | s, [] => .ok s
  | s, l :: ls =>
    match step s l with
    | .ok s2 => runE step s2 ls
    | .error s2 => .error s2

/-- The state a Python reader returns: on exception the handler prints and the
function still returns its local variables as accumulated. -/
def finalSt {σ : Type} : Except σ σ → σ
  | .ok s => s
  | .error s => s

deriving instance DecidableEq for Except

namespace bookshelf_analyzer

/-- One net of `parse_nets_file`: `{'name': ..., 'pin_count': ..., 'connections': [...]}`. -/
structure NetData where
  name : String
  pin_count : Int
  connections : List (String × String)
deriving DecidableEq

/-- Locals of `parse_nets_file`: `nets`, `current_net` (by name, aliasing the
dict entry), `net_count`. -/
structure NetsSt where
  nets : List (String × NetData)
  current : Option String
  count : Nat
deriving DecidableEq

/-- Syntactic classification of one `.nets` line (mirrors the branch
conditions of `parse_nets_file`, which only depend on the line text). -/
inductive NetsLine where
  | header (name : String) (pc : Int)
  | headerAbort
  | connection (parts : List String)
  | endnetMark
  | skip
deriving DecidableEq

/-- Branch conditions of `parse_nets_file` for one stripped line:
`line.startswith('net')` with ≥3 tokens opens a net (`int(parts[2])` raising
`ValueError` aborts the parse); `line.startswith('\t')` is the connection
branch; `line.startswith('endnet')` closes the net. -/
def classifyNets (raw : String) : NetsLine :=
  let line := pyStrip raw
  if pyStartswith line "net" then
    let parts := pySplit line
    if parts.length ≥ 3 then
      match pyInt? (parts.getD 2 "") with
      | none => .headerAbort
      | some pc => .header (parts.getD 1 "") pc
    else .skip
  else if pyStartswith line "\t" then .connection (pySplit line)
  else if pyStartswith line "endnet" then .endnetMark
  else .skip

/-- `current_net['connections'].append({'instance': parts[0], 'pin': parts[1]})`. -/
def addConn (parts : List String) (nd : NetData) : NetData :=
  { nd with connections := nd.connections ++ [(parts.getD 0 "", parts.getD 1 "")] }

/-- One loop iteration of `parse_nets_file`. -/
def netsStep (st : NetsSt) (raw : String) : Except NetsSt NetsSt :=
  match classifyNets raw with
  | .header name pc =>
    .ok { nets := alInsert name ⟨name, pc, []⟩ st.nets, current := some name,
          count := st.count + 1 }
  | .headerAbort => .error st
  | .connection parts =>
    match st.current with
    | some c =>
      if parts.length ≥ 2 then .ok { st with nets := alUpdate c (addConn parts) st.nets }
      else .ok st
    | none => .ok st
  | .endnetMark => .ok { st with current := none }
  | .skip => .ok st

/-- `parse_nets_file` of bookshelf_analyzer.py: returns `(nets, net_count)`. -/
def parse_nets_file (lines : List String) : List (String × NetData) × Nat :=
  let st := finalSt (runE netsStep ⟨[], none, 0⟩ lines)
  (st.nets, st.count)

/-- Names of the valid `net` header lines the parser processes, in order
(stops at a header whose pin-count token raises `ValueError`). -/
def processedNetNames : List String → List String
  | [] => []
  | l :: ls =>
    match classifyNets l with
    | .header name _ => name :: processedNetNames ls
    | .headerAbort => []
    | _ => processedNetNames ls

/-- One fixed placement of `parse_pl_file`: `{'x': ..., 'y': ..., 'bel': ...}`. -/
structure PlEntry where
  x : Int
  y : Int
  bel : Int
deriving DecidableEq

/-- Locals of `parse_pl_file`: `fixed_instances` and `fixed_types`. -/
structure PlSt where
  fixed_instances : List (String × PlEntry)
  fixed_types : List (String × Nat)
deriving DecidableEq

/-- Syntactic classification of one `.pl` line (mirrors `parse_pl_file`):
nonempty, not `#`-prefixed, ≥5 tokens and last token `FIXED` captures a
placement; a coordinate/bel token raising `ValueError` aborts the parse. -/
inductive PlLine where
  | cap (name : String) (x y bel : Int)
  | abort
  | skip
deriving DecidableEq

/-- Branch conditions of `parse_pl_file` for one stripped line. -/
def classifyPl (raw : String) : PlLine :=
  let line := pyStrip raw
  if !(line == "") && !(pyStartswith line "#") then
    let parts := pySplit line
    if parts.length ≥ 5 ∧ parts.getLast? = some "FIXED" then
      match pyInt? (parts.getD 1 ""), pyInt? (parts.getD 2 ""), pyInt? (parts.getD 3 "") with
      | some x, some y, some bel => .cap (parts.getD 0 "") x y bel
      | _, _, _ => .abort
    else .skip
  else .skip

/-- Type of a fixed instance: the cell type from the `.nodes` map, or
`UNKNOWN` when the instance name is absent (or the map was never built). -/
def plType (instances : List (String × String)) (name : String) : String :=
  match alGet? name instances with
  | some t => t
  | none => "UNKNOWN"

/-- One loop iteration of `parse_pl_file`. -/
def plStep (instances : List (String × String)) (st : PlSt) (raw : String) :
    Except PlSt PlSt :=
  match classifyPl raw with
  | .cap name x y bel =>
    .ok { fixed_instances := alInsert name ⟨x, y, bel⟩ st.fixed_instances,
          fixed_types := cInc (plType instances name) st.fixed_types }
  | .abort => .error st
  | .skip => .ok st

/-- `parse_pl_file` of bookshelf_analyzer.py (the `.nodes` instance map,
parsed earlier by `analyze_directory`, is passed in): returns
`(fixed_instances, fixed_types)`. -/
def parse_pl_file (instances : List (String × String)) (lines : List String) :
    List (String × PlEntry) × List (String × Nat) :=
  let st := finalSt (runE (plStep instances) ⟨[], []⟩ lines)
  (st.fixed_instances, st.fixed_types)

/-- Instance names of the FIXED lines the parser captures, in order
(stops at a line whose coordinate token raises `ValueError`). -/
def capturedFixedNames : List String → List String
  | [] => []
  | l :: ls =>
    match classifyPl l with
    | .cap name _ _ _ => name :: capturedFixedNames ls
    | .abort => []
    | .skip => capturedFixedNames ls

/-- Locals of `parse_scl_file`. -/
structure SclSt where
  sites : List (String × List (String × Int))
  resources : List (String × List String)
  site_map : List (Int × Int × String)
  sitemap_dimensions : Option (Int × Int)
  current_site : Option String
  in_resources : Bool
  in_sitemap : Bool
  site_map_count : Nat
deriving DecidableEq

/-- Initial locals of `parse_scl_file`. -/
def sclInit : SclSt := ⟨[], [], [], none, none, false, false, 0⟩

/-- One loop iteration of `parse_scl_file`: the nine `if`/`elif` branches of
the source in order (SITEMAP header; END SITEMAP; SITE outside sitemap;
END SITE; resource line of an open site, whose `int` can raise and abort;
RESOURCES; END RESOURCES; resource-group line; sitemap entry, stored only
while fewer than 10000 entries are stored, with `ValueError` skipping the
line). -/
def sclStep (st : SclSt) (raw : String) : Except SclSt SclSt :=
  let line := pyStrip raw
  if pyStartswith line "SITEMAP" then
    let parts := pySplit line
    if parts.length ≥ 3 then
      match pyInt? (parts.getD 1 ""), pyInt? (parts.getD 2 "") with
      | some w, some h =>
        .ok { st with in_sitemap := true, sitemap_dimensions := some (w, h) }
      | _, _ => .ok { st with in_sitemap := true }
    else .ok { st with in_sitemap := true }
  else if pyStartswith line "END SITEMAP" then
    .ok { st with in_sitemap := false }
  else if pyStartswith line "SITE" && !st.in_sitemap then
    let parts := pySplit line
    if parts.length ≥ 2 then
      .ok { st with current_site := some (parts.getD 1 ""), sites := alInsert (parts.getD 1 "") [] st.sites }
    else .error st
  else if pyStartswith line "END SITE" then
    .ok { st with current_site := none }
  else if st.current_site.isSome && !(line == "") && !st.in_sitemap then
    match st.current_site with
    | some cs =>
      let parts := pySplit line
      if parts.length ≥ 2 then
        match pyInt? (parts.getD 1 "") with
        | none => .error st
        | some rc => .ok { st with sites := alUpdate cs (alInsert (parts.getD 0 "") rc) st.sites }
      else .ok st
    | none => .ok st
  else if pyStartswith line "RESOURCES" then
    .ok { st with in_resources := true }
  else if pyStartswith line "END RESOURCES" then
    .ok { st with in_resources := false }
  else if st.in_resources && !(line == "") then
    let parts := pySplit line
    if parts.length ≥ 2 then
      .ok { st with resources := alInsert (parts.getD 0 "") (parts.drop 1) st.resources }
    else .ok st
  else if st.in_sitemap && !(line == "") && !(pyStartswith line "SITEMAP") then
    let parts := pySplit line
    if parts.length ≥ 3 ∧ st.site_map_count < 10000 then
      match pyInt? (parts.getD 0 ""), pyInt? (parts.getD 1 "") with
      | some x, some y =>
        .ok { st with site_map := st.site_map ++ [(x, y, parts.getD 2 "")], site_map_count := st.site_map_count + 1 }
      | _, _ => .ok st
    else .ok st
  else .ok st

/-- `parse_scl_file` of bookshelf_analyzer.py: returns
`(sites, resources, site_map, sitemap_dimensions)`. -/
def parse_scl_file (lines : List String) :
    List (String × List (String × Int)) × List (String × List String) ×
      List (Int × Int × String) × Option (Int × Int) :=
  let st := finalSt (runE sclStep sclInit lines)
  (st.sites, st.resources, st.site_map, st.sitemap_dimensions)

/-- A well-formed `<x> <y> <site-type>` sitemap entry line: nonempty after
stripping, not opening/closing a section, ≥3 tokens, integer coordinates. -/
def wfEntry (raw : String) : Bool :=
  let line := pyStrip raw
  let parts := pySplit line
  !(line == "") &&
    !(pyStartswith line "SITEMAP") && !(pyStartswith line "END SITE") &&
    !(pyStartswith line "RESOURCES") && !(pyStartswith line "END RESOURCES") &&
    decide (parts.length ≥ 3) &&
    (pyInt? (parts.getD 0 "")).isSome && (pyInt? (parts.getD 1 "")).isSome

/-- The sitemap entry a well-formed line denotes. -/
def sclEntryOf (raw : String) : Int × Int × String :=
  let parts := pySplit (pyStrip raw)
  ((pyInt? (parts.getD 0 "")).getD 0, (pyInt? (parts.getD 1 "")).getD 0, parts.getD 2 "")

/-- Locals of `count_site_types_from_scl`. -/
structure CntSt where
  in_sitemap : Bool
  counts : List (String × Nat)
deriving DecidableEq

/-- One loop iteration of `count_site_types_from_scl` (no exception can
escape: the only body statement in its `try` is an indexing guarded by the
length check). -/
def countStep (st : CntSt) (raw : String) : CntSt :=
  let line := pyStrip raw
  if pyStartswith line "SITEMAP" then { st with in_sitemap := true }
  else if pyStartswith line "END SITEMAP" then { st with in_sitemap := false }
  else if st.in_sitemap && !(line == "") && !(pyStartswith line "SITEMAP") then
    let parts := pySplit line
    if parts.length ≥ 3 then { st with counts := cInc (parts.getD 2 "") st.counts }
    else st
  else st

/-- `count_site_types_from_scl` of bookshelf_analyzer.py: the streaming
per-site-type tally. -/
def count_site_types_from_scl (lines : List String) : List (String × Nat) :=
  (lines.foldl countStep ⟨false, []⟩).counts

/-- Locals of `parse_wts_file`: `weights` and `weight_count`. -/
structure WtsSt where
  weights : List (String × Rat)
  weight_count : Nat
deriving DecidableEq

/-- Syntactic classification of one `.wts` line (mirrors `parse_wts_file`):
nonempty, not `#`-prefixed, ≥2 tokens records a weight; `float(parts[1])`
raising `ValueError` aborts the parse. -/
inductive WtsLine where
  | entry (name : String) (w : Rat)
  | abort
  | skip
deriving DecidableEq

/-- Branch conditions of `parse_wts_file` for one stripped line. -/
def classifyWts (raw : String) : WtsLine :=
  let line := pyStrip raw
  if !(line == "") && !(pyStartswith line "#") then
    let parts := pySplit line
    if parts.length ≥ 2 then
      match pyFloat? (parts.getD 1 "") with
      | none => .abort
      | some w => .entry (parts.getD 0 "") w
    else .skip
  else .skip

/-- One loop iteration of `parse_wts_file`. -/
def wtsStep (st : WtsSt) (raw : String) : Except WtsSt WtsSt :=
  match classifyWts raw with
  | .entry name w =>
    .ok { weights := alInsert name w st.weights, weight_count := st.weight_count + 1 }
  | .abort => .error st
  | .skip => .ok st

/-- `parse_wts_file` of bookshelf_analyzer.py: returns `(weights, weight_count)`. -/
def parse_wts_file (lines : List String) : List (String × Rat) × Nat :=
  let st := finalSt (runE wtsStep ⟨[], 0⟩ lines)
  (st.weights, st.weight_count)

/-- `"-" * 30`, the section rule of the report. -/
def dashes30 : String := ⟨List.replicate 30 '-'⟩

/-- Round `a / b` (with `b > 0`) to the nearest integer, ties to even —
the rounding of Python's `format(x, '.2f')`, with the float value modelled
as the exact rational. -/
def roundHalfEvenInt (a b : Int) : Int :=
  let f := a.fdiv b
  let r := a - f * b
  if 2 * r < b then f else if b < 2 * r then f + 1 else if f % 2 = 0 then f else f + 1

/-- Two-digit zero-padded decimal field. -/
def pad2 (m : Nat) : String := if m < 10 then "0" ++ toString m else toString m

/-- Python `f"{num/den:.2f}"` with the quotient modelled as an exact
rational: round to 2 decimal places (ties to even) and print with exactly
two digits after the point. -/
def fmt2 (num : Int) (den : Nat) : String :=
  let n := roundHalfEvenInt (100 * num) (den : Int)
  ((if n < 0 then "-" else "") ++ toString (n.natAbs / 100)) ++ "." ++ pad2 (n.natAbs % 100)

/-- Python `min` over a nonempty int list (0 for the empty list, unused). -/
def listMin : List Int → Int
  | [] => 0
  | a :: t => t.foldl min a

/-- Python `max` over a nonempty int list (0 for the empty list, unused). -/
def listMax : List Int → Int
  | [] => 0
  | a :: t => t.foldl max a

/-- The NETS section of `generate_text_report` (source lines 415–423):
banner, total net count, and — when any nets exist — average (2 decimal
places), min and max of the declared pin counts. -/
def netsSection (nets : List (String × NetData)) (net_count : Nat) : List String :=
  ["NETS:", dashes30, "Total Nets: " ++ toString net_count] ++
    (if nets = [] then [] else
      let pin_counts := nets.map (fun p => p.2.pin_count)
      ["Average Pins per Net: " ++ fmt2 pin_counts.sum pin_counts.length,
       "Min Pins per Net: " ++ toString (listMin pin_counts),
       "Max Pins per Net: " ++ toString (listMax pin_counts)]) ++ [""]

end bookshelf_analyzer

namespace fixed_elements_visualizer

/-- One fixed instance of the Fixed-Elements Visualizer's `.pl` reader:
`{'name': ..., 'x': ..., 'y': ..., 'bel': ...}` (kept in a list, duplicates
preserved). -/
structure FixedInst where
  name : String
  x : Int
  y : Int
  bel : Int
deriving DecidableEq

/-- The in-bounds test of the drawing loop:
`0 <= x < width and 0 <= y < height`. -/
def inBounds (width height : Int) (i : FixedInst) : Bool :=
  decide (0 ≤ i.x) && decide (i.x < width) && decide (0 ≤ i.y) && decide (i.y < height)

/-- The instances for which the drawing loop of
`create_fixed_elements_visualization` adds a rectangle: exactly those whose
coordinates pass the bounds test; the rest are silently skipped. -/
def drawnRects (width height : Int) (fixed_instances : List FixedInst) : List FixedInst :=
  fixed_instances.filter (inBounds width height)

/-- The `Total Fixed Instances` line of the statistics overlay: built from
`len(fixed_instances)`, the full parsed list. -/
def statsTotalLine (fixed_instances : List FixedInst) : String :=
  "Total Fixed Instances: " ++ toString fixed_instances.length

/-- Observable output of `create_fixed_elements_visualization`: `none` models
the early returns (invalid dimensions, no fixed instances); otherwise the
drawn rectangles and the statistics total line. -/
def create_fixed_elements_visualization (width height : Int)
    (fixed_instances : List FixedInst) : Option (List FixedInst × String) :=
  if width = 0 ∨ height = 0 then none
  else if fixed_instances = [] then none
  else some (drawnRects width height fixed_instances, statsTotalLine fixed_instances)

end fixed_elements_visualizer

namespace scl_visualizer

/-- First loop of the Site-Map Visualizer's `parse_scl_file`: scan for the
first `SITEMAP` line with ≥3 tokens and take its dimensions (a `ValueError`
from `int` escapes to the file-level handler, which resets everything);
`(0, 0)` when no such line exists. -/
def svDims : List String → Except Unit (Int × Int)
  | [] => .ok (0, 0)
  | l :: ls =>
    let line := pyStrip l
    if pyStartswith line "SITEMAP" then
      let parts := pySplit line
      if parts.length ≥ 3 then
        match pyInt? (parts.getD 1 ""), pyInt? (parts.getD 2 "") with
        | some w, some h => .ok (w, h)
        | _, _ => .error ()
      else svDims ls
    else svDims ls

/-- Second loop of `parse_scl_file`, per line: any nonempty line not starting
with `SITE`, `RESOURCES` or `SITEMAP`, with ≥3 tokens and integer first two
tokens, yields an `(x, y, site_type)` triple; `ValueError` skips the line. -/
def svLine? (raw : String) : Option (Int × Int × String) :=
  let line := pyStrip raw
  if !(line == "") && !(pyStartswith line "SITE") && !(pyStartswith line "RESOURCES") && !(pyStartswith line "SITEMAP") then
    let parts := pySplit line
    if parts.length ≥ 3 then
      match pyInt? (parts.getD 0 ""), pyInt? (parts.getD 1 "") with
      | some x, some y => some (x, y, parts.getD 2 "")
      | _, _ => none
    else none
  else none

/-- The `sites` list collected by the second loop. -/
def svSites (lines : List String) : List (Int × Int × String) := lines.filterMap svLine?

/-- The `site_types` set collected alongside `sites`, modelled as the
insertion-ordered list of distinct types. -/
def svTypes (lines : List String) : List String :=
  ((svSites lines).map (fun t => t.2.2)).foldl insKey []

/-- `parse_scl_file` of scl_visualizer.py: returns
`(width, height, sites, site_types)`; on an exception while reading, the
handler returns `0, 0, [], set()`. -/
def parse_scl_file (lines : List String) :
    Int × Int × List (Int × Int × String) × List String :=
  match svDims lines with
  | .error _ => (0, 0, [], [])
  | .ok (w, h) => (w, h, svSites lines, svTypes lines)

/-- The legend condition of `create_site_visualization`:
`if len(site_types) <= 10`. -/
def legendShown (site_types : List String) : Bool := decide (site_types.length ≤ 10)

end scl_visualizer

section helper_lemmas

open bookshelf_analyzer

theorem runE_append {σ : Type} (step : σ → String → Except σ σ) (s : σ) (xs ys : List String) :
    runE step s (xs ++ ys) =
      match runE step s xs with
      | .ok s2 => runE step s2 ys
      | .error s2 => .error s2 := by
  induction xs generalizing s with
  | nil => simp [runE]
  | cons x xs ih =>
    simp only [List.cons_append, runE]
    cases step s x with
    | ok s2 => exact ih s2
    | error s2 => rfl

theorem dropWhile_head_not (p : Char → Bool) :
    ∀ (l : List Char) (b : Char) (t : List Char), l.dropWhile p = b :: t → p b = false := by
  intro l
  induction l with
  | nil => intro b t h; simp [List.dropWhile] at h
  | cons a l ih =>
    intro b t h
    cases hpa : p a with
    | true =>
      simp only [List.dropWhile, hpa] at h
      exact ih b t h
    | false =>
      simp only [List.dropWhile, hpa] at h
      injection h with h1 h2
      subst h1
      exact hpa

theorem dropWhile_append_single (p : Char → Bool) (b : Char) (hb : p b = false) :
    ∀ xs : List Char, (xs ++ [b]).dropWhile p = xs.dropWhile p ++ [b] := by
  intro xs
  induction xs with
  | nil => simp [List.dropWhile, hb]
  | cons a xs ih => by_cases hp : p a = true <;> simp [List.dropWhile, hp, ih]

theorem pyStripChars_head_not (l : List Char) (b : Char) (t : List Char)
    (h : pyStripChars l = b :: t) : isPySpace b = false := by
  unfold pyStripChars at h
  cases hfsE : l.dropWhile isPySpace with
  | nil => rw [hfsE] at h; simp at h
  | cons c cs =>
    have hc : isPySpace c = false := dropWhile_head_not _ l c cs hfsE
    rw [hfsE, List.reverse_cons, dropWhile_append_single _ c hc, List.reverse_append] at h
    simp at h
    obtain ⟨rfl, -⟩ := h
    exact hc

theorem pyStartswith_tab_strip (s : String) : pyStartswith (pyStrip s) "\t" = false := by
  show startsWithChars "\t".data (pyStripChars s.data) = false
  cases hE : pyStripChars s.data with
  | nil => rfl
  | cons b t =>
    have hb := pyStripChars_head_not s.data b t hE
    show startsWithChars ['\t'] (b :: t) = false
    simp only [startsWithChars, Bool.and_eq_true, beq_iff_eq]
    by_cases hc : '\t' = b
    · exfalso; rw [← hc] at hb; simp [isPySpace] at hb
    · simp [startsWithChars, hc]

theorem startsWithChars_trans :
    ∀ (a b c : List Char), startsWithChars a b = true → startsWithChars b c = true →
      startsWithChars a c = true := by
  intro a
  induction a with
  | nil => intro b c _ _; rfl
  | cons x xs ih =>
    intro b c h1 h2
    cases b with
    | nil => simp [startsWithChars] at h1
    | cons y ys =>
      cases c with
      | nil => simp [startsWithChars] at h2
      | cons z zs =>
        simp only [startsWithChars, Bool.and_eq_true, beq_iff_eq] at h1 h2 ⊢
        exact ⟨h1.1.trans h2.1, ih ys zs h1.2 h2.2⟩

theorem pyStartswith_mono (s p q : String) (hq : startsWithChars q.data p.data = true)
    (h : pyStartswith s p = true) : pyStartswith s q = true :=
  startsWithChars_trans q.data p.data s.data hq h

theorem sumC_cInc (k : String) (c : List (String × Nat)) : sumC (cInc k c) = sumC c + 1 := by
  induction c with
  | nil => simp [cInc, sumC]
  | cons p t ih =>
    obtain ⟨k2, n⟩ := p
    by_cases h : k2 = k <;> simp [cInc, h, sumC] at * <;> omega

theorem cGet_cInc (k t : String) (c : List (String × Nat)) :
    cGet t (cInc k c) = cGet t c + (if k = t then 1 else 0) := by
  induction c with
  | nil => by_cases h : k = t <;> simp [cInc, cGet, alGet?, h]
  | cons p cs ih =>
    obtain ⟨k2, n⟩ := p
    by_cases h : k2 = k
    · subst h
      by_cases h2 : k2 = t <;> simp [cInc, cGet, alGet?, h2]
    · by_cases h2 : k2 = t
      · subst h2
        have hkt : ¬ k = k2 := fun hh => h hh.symm
        simp [cInc, h, cGet, alGet?, hkt]
      · simpa [cInc, h, cGet, alGet?, h2] using ih

theorem alInsert_keys {α : Type} (k : String) (v : α) (l : List (String × α)) :
    (alInsert k v l).map Prod.fst = insKey (l.map Prod.fst) k := by
  induction l with
  | nil => simp [alInsert, insKey]
  | cons p t ih =>
    obtain ⟨k2, v2⟩ := p
    by_cases h : k2 = k
    · subst h; simp [alInsert, insKey, List.mem_cons]
    · have hstep : (alInsert k v ((k2, v2) :: t)).map Prod.fst =
          k2 :: (alInsert k v t).map Prod.fst := by simp [alInsert, h]
      rw [hstep, ih]
      have hne : ¬ k = k2 := fun hh => h hh.symm
      by_cases hm : k ∈ t.map Prod.fst
      · simp [insKey, hm, List.mem_cons, hne]
      · simp [insKey, hm, List.mem_cons, hne]

theorem alUpdate_keys {α : Type} (k : String) (f : α → α) (l : List (String × α)) :
    (alUpdate k f l).map Prod.fst = l.map Prod.fst := by
  induction l with
  | nil => simp [alUpdate]
  | cons p t ih =>
    obtain ⟨k2, v2⟩ := p
    by_cases h : k2 = k <;> simp [alUpdate, h, ih]

theorem mem_insKey (x k : String) (ks : List String) : x ∈ insKey ks k ↔ x ∈ ks ∨ x = k := by
  by_cases h : k ∈ ks
  · simp only [insKey, if_pos h]
    exact ⟨Or.inl, fun hh => hh.elim id fun he => he ▸ h⟩
  · simp [insKey, if_neg h, List.mem_append]

theorem length_insKey (ks : List String) (k : String) : (insKey ks k).length ≤ ks.length + 1 := by
  by_cases h : k ∈ ks <;> simp [insKey, h]

theorem foldl_insKey_le :
    ∀ (ns ks : List String), (ns.foldl insKey ks).length ≤ ks.length + ns.length := by
  intro ns
  induction ns with
  | nil => simp
  | cons a ns ih =>
    intro ks
    have h1 := ih (insKey ks a)
    have h2 := length_insKey ks a
    simp only [List.foldl_cons, List.length_cons]
    omega

theorem foldl_insKey_eq_iff :
    ∀ (ns ks : List String),
      (ns.foldl insKey ks).length = ks.length + ns.length ↔
        ns.Nodup ∧ ∀ n ∈ ns, n ∉ ks := by
  intro ns
  induction ns with
  | nil => simp
  | cons a ns ih =>
    intro ks
    simp only [List.foldl_cons, List.length_cons]
    by_cases h : a ∈ ks
    · have h1 : insKey ks a = ks := by simp [insKey, h]
      rw [h1]
      constructor
      · intro he; exfalso; have := foldl_insKey_le ns ks; omega
      · rintro ⟨-, hall⟩; exact absurd h (hall a (by simp))
    · have h1 : insKey ks a = ks ++ [a] := by simp [insKey, h]
      have hlen : ks.length + (ns.length + 1) = (ks ++ [a]).length + ns.length := by
        simp; omega
      rw [h1, hlen, ih]
      constructor
      · rintro ⟨hnd, hall⟩
        refine ⟨List.nodup_cons.mpr ⟨?_, hnd⟩, ?_⟩
        · intro hmem
          have := hall a hmem
          simp [List.mem_append] at this
        · intro n hn
          rcases List.mem_cons.mp hn with rfl | hn2
          · exact h
          · have := hall n hn2
            intro hk; exact this (by simp [hk])
      · rintro ⟨hnd, hall⟩
        rw [List.nodup_cons] at hnd
        refine ⟨hnd.2, ?_⟩
        intro n hn
        simp only [List.mem_append, List.mem_singleton]
        rintro (hk | rfl)
        · exact hall n (by simp [hn]) hk
        · exact hnd.1 hn

theorem mem_foldl_insKey :
    ∀ (ns ks : List String) (x : String), x ∈ ns.foldl insKey ks ↔ x ∈ ks ∨ x ∈ ns := by
  intro ns
  induction ns with
  | nil => simp
  | cons a ns ih =>
    intro ks x
    rw [List.foldl_cons, ih, mem_insKey]
    simp [List.mem_cons]
    tauto

theorem nodup_foldl_insKey :
    ∀ (ns ks : List String), ks.Nodup → (ns.foldl insKey ks).Nodup := by
  intro ns
  induction ns with
  | nil => intro ks h; exact h
  | cons a ns ih =>
    intro ks h
    rw [List.foldl_cons]
    apply ih
    by_cases hm : a ∈ ks
    · simpa [insKey, hm]
    · rw [insKey, if_neg hm]
      simp [List.nodup_append, h, hm]

theorem length_foldl_insKey_toFinset (ns : List String) :
    (ns.foldl insKey []).length = ns.toFinset.card := by
  have hnd : (ns.foldl insKey []).Nodup := nodup_foldl_insKey ns [] (by simp)
  have hfs : (ns.foldl insKey []).toFinset = ns.toFinset := by
    ext x; simp [List.mem_toFinset, mem_foldl_insKey]
  rw [← List.toFinset_card_of_nodup hnd, hfs]

theorem mem_alInsert {α : Type} (k : String) (v : α) (l : List (String × α)) (p : String × α)
    (h : p ∈ alInsert k v l) : p = (k, v) ∨ p ∈ l := by
  induction l with
  | nil => simp [alInsert] at h; exact Or.inl h
  | cons q t ih =>
    obtain ⟨k2, v2⟩ := q
    by_cases he : k2 = k
    · simp [alInsert, he] at h
      rcases h with h | h
      · exact Or.inl (by simp [h])
      · exact Or.inr (List.mem_cons_of_mem _ h)
    · simp [alInsert, he] at h
      rcases h with h | h
      · exact Or.inr (by simp [h])
      · rcases ih h with h2 | h2
        · exact Or.inl h2
        · exact Or.inr (List.mem_cons_of_mem _ h2)

theorem filter_length_mono {α : Type} (p q : α → Bool) (h : ∀ a, p a = true → q a = true) :
    ∀ l : List α, (l.filter p).length ≤ (l.filter q).length := by
  intro l
  induction l with
  | nil => simp
  | cons a t ih =>
    by_cases hp : p a = true
    · simp [List.filter_cons, hp, h a hp]; omega
    · have hp2 : p a = false := by simpa using hp
      by_cases hq : q a = true <;> simp [List.filter_cons, hp2, hq] <;> omega

theorem pad2_length : ∀ m : Nat, m < 100 → (bookshelf_analyzer.pad2 m).length = 2 := by decide

end helper_lemmas

section run_lemmas

open bookshelf_analyzer

theorem nets_run_count :
    ∀ (ls : List String) (st : NetsSt),
      (finalSt (runE netsStep st ls)).count = st.count + (processedNetNames ls).length := by
  intro ls
  induction ls with
  | nil => intro st; simp [runE, finalSt, processedNetNames]
  | cons l ls ih =>
    intro st
    simp only [runE, processedNetNames]
    cases hc : classifyNets l with
    | header name pc => simp only [netsStep, hc]; rw [ih]; simp; omega
    | headerAbort => simp [netsStep, hc, finalSt]
    | connection parts =>
      simp only [netsStep, hc]
      cases st.current with
      | some c =>
        by_cases hl : parts.length ≥ 2 <;> simp only [if_pos, if_neg, hl, ite_true, ite_false] <;> rw [ih]
      | none => rw [ih]
    | endnetMark => simp only [netsStep, hc]; rw [ih]
    | skip => simp only [netsStep, hc]; rw [ih]

theorem nets_run_keys :
    ∀ (ls : List String) (st : NetsSt),
      (finalSt (runE netsStep st ls)).nets.map Prod.fst =
        (processedNetNames ls).foldl insKey (st.nets.map Prod.fst) := by
  intro ls
  induction ls with
  | nil => intro st; simp [runE, finalSt, processedNetNames]
  | cons l ls ih =>
    intro st
    simp only [runE, processedNetNames]
    cases hc : classifyNets l with
    | header name pc =>
      simp only [netsStep, hc, List.foldl_cons]
      rw [ih]
      congr 1
      exact alInsert_keys name _ st.nets
    | headerAbort => simp [netsStep, hc, finalSt]
    | connection parts =>
      simp only [netsStep, hc]
      cases st.current with
      | some c =>
        by_cases hl : parts.length ≥ 2
        · simp only [if_pos hl]
          rw [ih]
          congr 1
          exact alUpdate_keys c _ st.nets
        · simp only [if_neg hl]; rw [ih]
      | none => rw [ih]
    | endnetMark => simp only [netsStep, hc]; rw [ih]
    | skip => simp only [netsStep, hc]; rw [ih]

theorem classifyNets_ne_connection (raw : String) (parts : List String) :
    classifyNets raw ≠ .connection parts := by
  unfold classifyNets
  by_cases h1 : pyStartswith (pyStrip raw) "net" = true
  · simp only [h1, if_true]
    split
    · split <;> simp
    · simp
  · have h2 := pyStartswith_tab_strip raw
    have h1f : pyStartswith (pyStrip raw) "net" = false := by simpa using h1
    simp [h1f, h2]
    split <;> simp

theorem nets_run_conns_nil :
    ∀ (ls : List String) (st : NetsSt),
      (∀ p ∈ st.nets, p.2.connections = []) →
        ∀ p ∈ (finalSt (runE netsStep st ls)).nets, p.2.connections = [] := by
  intro ls
  induction ls with
  | nil => intro st h; simpa [runE, finalSt] using h
  | cons l ls ih =>
    intro st h
    simp only [runE]
    cases hc : classifyNets l with
    | header name pc =>
      simp only [netsStep, hc]
      apply ih
      intro p hp
      rcases mem_alInsert name _ st.nets p hp with rfl | hp2
      · rfl
      · exact h p hp2
    | headerAbort => simpa [netsStep, hc, finalSt] using h
    | connection parts => exact absurd hc (classifyNets_ne_connection l parts)
    | endnetMark => simp only [netsStep, hc]; exact ih _ h
    | skip => simp only [netsStep, hc]; exact ih _ h

theorem pl_run_sum (instances : List (String × String)) :
    ∀ (ls : List String) (st : PlSt),
      sumC (finalSt (runE (plStep instances) st ls)).fixed_types =
        sumC st.fixed_types + (capturedFixedNames ls).length := by
  intro ls
  induction ls with
  | nil => intro st; simp [runE, finalSt, capturedFixedNames]
  | cons l ls ih =>
    intro st
    simp only [runE, capturedFixedNames]
    cases hc : classifyPl l with
    | cap name x y bel =>
      simp only [plStep, hc]
      rw [ih]
      simp [sumC_cInc]
      omega
    | abort => simp [plStep, hc, finalSt]
    | skip => simp only [plStep, hc]; rw [ih]

theorem pl_run_cGet (instances : List (String × String)) (t : String) :
    ∀ (ls : List String) (st : PlSt),
      cGet t (finalSt (runE (plStep instances) st ls)).fixed_types =
        cGet t st.fixed_types +
          ((capturedFixedNames ls).filter (fun n => plType instances n == t)).length := by
  intro ls
  induction ls with
  | nil => intro st; simp [runE, finalSt, capturedFixedNames]
  | cons l ls ih =>
    intro st
    simp only [runE, capturedFixedNames]
    cases hc : classifyPl l with
    | cap name x y bel =>
      simp only [plStep, hc]
      rw [ih]
      simp only [cGet_cInc, List.filter_cons]
      by_cases he : plType instances name = t
      · simp [he]; omega
      · simp [he]
    | abort => simp [plStep, hc, finalSt]
    | skip => simp only [plStep, hc]; rw [ih]

theorem pl_run_keys (instances : List (String × String)) :
    ∀ (ls : List String) (st : PlSt),
      (finalSt (runE (plStep instances) st ls)).fixed_instances.map Prod.fst =
        (capturedFixedNames ls).foldl insKey (st.fixed_instances.map Prod.fst) := by
  intro ls
  induction ls with
  | nil => intro st; simp [runE, finalSt, capturedFixedNames]
  | cons l ls ih =>
    intro st
    simp only [runE, capturedFixedNames]
    cases hc : classifyPl l with
    | cap name x y bel =>
      simp only [plStep, hc, List.foldl_cons]
      rw [ih]
      congr 1
      exact alInsert_keys name _ st.fixed_instances
    | abort => simp [plStep, hc, finalSt]
    | skip => simp only [plStep, hc]; rw [ih]

theorem sclStep_sitemapHdr (st : bookshelf_analyzer.SclSt) (raw : String)
    (h : pyStartswith (pyStrip raw) "SITEMAP" = true) :
    ∃ d, bookshelf_analyzer.sclStep st raw =
      .ok { st with in_sitemap := true, sitemap_dimensions := d } := by
  unfold bookshelf_analyzer.sclStep
  simp only [h, if_true]
  split
  · split <;> exact ⟨_, rfl⟩
  · exact ⟨_, rfl⟩

theorem pyStartswith_endsitemap_endsite (l : String)
    (h : pyStartswith l "END SITEMAP" = true) : pyStartswith l "END SITE" = true :=
  pyStartswith_mono l "END SITEMAP" "END SITE" (by decide) h

/-- The state produced by one sitemap entry step. -/
def sclPush (st : bookshelf_analyzer.SclSt) (raw : String) : bookshelf_analyzer.SclSt :=
  { st with site_map := st.site_map ++ [bookshelf_analyzer.sclEntryOf raw], site_map_count := st.site_map_count + 1 }

theorem sclStep_wf (st : bookshelf_analyzer.SclSt) (raw : String)
    (hwf : bookshelf_analyzer.wfEntry raw = true)
    (hsm : st.in_sitemap = true) (hres : st.in_resources = false) :
    bookshelf_analyzer.sclStep st raw =
      .ok (if st.site_map_count < 10000 then sclPush st raw else st) := by
  unfold bookshelf_analyzer.wfEntry at hwf
  simp only [Bool.and_eq_true, Bool.not_eq_true', decide_eq_true_eq] at hwf
  obtain ⟨⟨⟨⟨⟨⟨⟨hne, hsmap⟩, hendsite⟩, hresw⟩, hendres⟩, hlen⟩, hx⟩, hy⟩ := hwf
  have hendsm : pyStartswith (pyStrip raw) "END SITEMAP" = false := by
    rcases Bool.eq_false_or_eq_true (pyStartswith (pyStrip raw) "END SITEMAP") with hB | hB
    · exact absurd (pyStartswith_endsitemap_endsite _ hB) (by simp [hendsite])
    · exact hB
  obtain ⟨x, hx2⟩ := Option.isSome_iff_exists.mp hx
  obtain ⟨y, hy2⟩ := Option.isSome_iff_exists.mp hy
  unfold bookshelf_analyzer.sclStep
  simp only [hsmap, hendsm, hendsite, hresw, hendres, hne, hsm, hres, Bool.false_eq_true,
    if_false, Bool.not_true, Bool.not_false, Bool.and_false, Bool.and_true, Bool.false_and,
    Bool.true_and, if_true]
  by_cases hcap : st.site_map_count < 10000
  · rw [if_pos ⟨hlen, hcap⟩, if_pos hcap]
    simp only [sclPush, bookshelf_analyzer.sclEntryOf]
    rw [hx2, hy2, hres, hsm]
    rfl
  · rw [if_neg (fun hh => hcap hh.2), if_neg hcap]

theorem scl_run_wf :
    ∀ (entries : List String) (st : bookshelf_analyzer.SclSt),
      entries.all bookshelf_analyzer.wfEntry = true →
      st.in_sitemap = true → st.in_resources = false →
      st.site_map_count = st.site_map.length → st.site_map.length ≤ 10000 →
      ∃ st2, runE bookshelf_analyzer.sclStep st entries = .ok st2 ∧
        st2.site_map.length = min (st.site_map.length + entries.length) 10000 := by
  intro entries
  induction entries with
  | nil =>
    intro st _ _ _ _ hle
    refine ⟨st, rfl, ?_⟩
    simp only [List.length_nil, Nat.add_zero]
    exact (Nat.min_eq_left hle).symm
  | cons e es ih =>
    intro st hall hsm hres hcnt hle
    simp only [List.all_cons, Bool.and_eq_true] at hall
    obtain ⟨h1, h2⟩ := hall
    have hstep := sclStep_wf st e h1 hsm hres
    by_cases hcap : st.site_map_count < 10000
    · rw [if_pos hcap] at hstep
      obtain ⟨st2, hrun, hlen2⟩ :=
        ih (sclPush st e) h2 hsm hres (by simp [sclPush]; omega) (by simp [sclPush]; omega)
      refine ⟨st2, ?_, ?_⟩
      · simp only [runE, hstep]
        exact hrun
      · rw [hlen2]
        simp only [sclPush, List.length_append, List.length_cons, List.length_singleton,
          List.length_nil]
        congr 1
        omega
    · rw [if_neg hcap] at hstep
      obtain ⟨st2, hrun, hlen2⟩ := ih st h2 hsm hres hcnt hle
      refine ⟨st2, ?_, ?_⟩
      · simp only [runE, hstep]
        exact hrun
      · have h10 : st.site_map.length = 10000 := by omega
        rw [hlen2, h10, List.length_cons,
          Nat.min_eq_right (by omega), Nat.min_eq_right (by omega)]

theorem countStep_sitemapHdr (st : bookshelf_analyzer.CntSt) (raw : String)
    (h : pyStartswith (pyStrip raw) "SITEMAP" = true) :
    bookshelf_analyzer.countStep st raw = { st with in_sitemap := true } := by
  simp [bookshelf_analyzer.countStep, h]

theorem countStep_wf (st : bookshelf_analyzer.CntSt) (raw : String)
    (hwf : bookshelf_analyzer.wfEntry raw = true) (hsm : st.in_sitemap = true) :
    bookshelf_analyzer.countStep st raw =
      { st with counts := cInc ((pySplit (pyStrip raw)).getD 2 "") st.counts } := by
  unfold bookshelf_analyzer.wfEntry at hwf
  simp only [Bool.and_eq_true, Bool.not_eq_true', decide_eq_true_eq] at hwf
  obtain ⟨⟨⟨⟨⟨⟨⟨hne, hsmap⟩, hendsite⟩, hresw⟩, hendres⟩, hlen⟩, hx⟩, hy⟩ := hwf
  have hendsm : pyStartswith (pyStrip raw) "END SITEMAP" = false := by
    rcases Bool.eq_false_or_eq_true (pyStartswith (pyStrip raw) "END SITEMAP") with hB | hB
    · exact absurd (pyStartswith_endsitemap_endsite _ hB) (by simp [hendsite])
    · exact hB
  unfold bookshelf_analyzer.countStep
  simp only [hsmap, hendsm, hne, hsm, Bool.false_eq_true, if_false, Bool.not_true,
    Bool.not_false, Bool.and_true, Bool.true_and, if_true]
  rw [if_pos hlen]

theorem count_run_wf :
    ∀ (entries : List String) (st : bookshelf_analyzer.CntSt),
      entries.all bookshelf_analyzer.wfEntry = true → st.in_sitemap = true →
      sumC (entries.foldl bookshelf_analyzer.countStep st).counts =
        sumC st.counts + entries.length := by
  intro entries
  induction entries with
  | nil => intro st _ _; simp
  | cons e es ih =>
    intro st hall hsm
    simp only [List.all_cons, Bool.and_eq_true] at hall
    obtain ⟨h1, h2⟩ := hall
    rw [List.foldl_cons, countStep_wf st e h1 hsm]
    have hrec := ih { st with counts := cInc ((pySplit (pyStrip e)).getD 2 "") st.counts } h2 hsm
    rw [hrec, sumC_cInc]
    simp only [List.length_cons]
    omega

end run_lemmas

section claims

/-- C1: the spec says tab-prefixed lines inside an open `net` block append
connections, and that `net N1 2` + two tab lines + `endnet` yields net N1
with two connections.  The code strips each line before testing
`startswith('\t')`, so the connection branch never fires: on the claim's
input, net N1 has pin count 2 but an empty connection list, and in general
every net's connection list is empty after any parse. -/
theorem C1_nets_connection_capture :
    (bookshelf_analyzer.parse_nets_file ["net N1 2", "\tI1 A", "\tI2 B", "endnet"] =
      ([("N1", { name := "N1", pin_count := 2, connections := [] })], 1)) ∧
    ∀ lines : List String,
      (bookshelf_analyzer.parse_nets_file lines).1.all (fun p => p.2.connections.isEmpty) = true := by
  constructor
  · decide
  · intro lines
    rw [List.all_eq_true]
    intro p hp
    have h2 := nets_run_conns_nil lines ⟨[], none, 0⟩ (by intro q hq; simp at hq) p hp
    simp [h2]

/-- C2 counterexample: for the file `SITEMAP 5 7` / `END SITEMAP` /
`SITEMAP 9 11`, the recorded dimensions are those of the *last* SITEMAP
line, `(9, 11)`, not the first line's `(5, 7)` as the claim states. -/
theorem C2_sitemap_first_wins_counterexample :
    (bookshelf_analyzer.parse_scl_file ["SITEMAP 5 7", "END SITEMAP", "SITEMAP 9 11"]).2.2.2 =
        some (9, 11) ∧
    (bookshelf_analyzer.parse_scl_file ["SITEMAP 5 7", "END SITEMAP", "SITEMAP 9 11"]).2.2.2 ≠
        some (5, 7) := by
  decide

/-- C2 (amended): every `SITEMAP` line with ≥3 tokens and parseable integer
dimensions records those dimensions unconditionally — the new value does not
depend on any previously stored dimensions, so the *last* such line wins and
later SITEMAP lines replace earlier ones. -/
theorem C2_sitemap_overwrite (st : bookshelf_analyzer.SclSt) (raw : String) (w h : Int)
    (hs : pyStartswith (pyStrip raw) "SITEMAP" = true)
    (hlen : (pySplit (pyStrip raw)).length ≥ 3)
    (hw : pyInt? ((pySplit (pyStrip raw)).getD 1 "") = some w)
    (hh : pyInt? ((pySplit (pyStrip raw)).getD 2 "") = some h) :
    bookshelf_analyzer.sclStep st raw =
      .ok { st with in_sitemap := true, sitemap_dimensions := some (w, h) } := by
  unfold bookshelf_analyzer.sclStep
  simp only [hs, if_true]
  rw [if_pos hlen, hw, hh]

/-- Witness for C2's amended theorem at the line `SITEMAP 9 11` from the
initial parser state. -/
theorem C2_sitemap_overwrite_witness :
    pyStartswith (pyStrip "SITEMAP 9 11") "SITEMAP" = true ∧
    bookshelf_analyzer.sclStep bookshelf_analyzer.sclInit "SITEMAP 9 11" =
      .ok { bookshelf_analyzer.sclInit with in_sitemap := true, sitemap_dimensions := some (9, 11) } :=
  ⟨by decide,
    C2_sitemap_overwrite bookshelf_analyzer.sclInit "SITEMAP 9 11" 9 11
      (by decide) (by decide) (by decide) (by decide)⟩

/-- C3 counterexample: the claim says a mid-file parse exception makes the
reader return its *empty* result.  For `.wts` input `n1 1.0` / `n2 abc`
(second weight unparseable) the reader returns one weight and count 1, and
for `.pl` input `a 1 2 0 FIXED` / `b x 2 0 FIXED` (second x unparseable)
the reader returns the one already-captured instance — partial, not empty. -/
theorem C3_empty_result_counterexample :
    (bookshelf_analyzer.parse_wts_file ["n1 1.0", "n2 abc"]).2 = 1 ∧
    (bookshelf_analyzer.parse_wts_file ["n1 1.0", "n2 abc"]).1.map Prod.fst = ["n1"] ∧
    (bookshelf_analyzer.parse_pl_file [] ["a 1 2 0 FIXED", "b x 2 0 FIXED"]).1.map Prod.fst =
      ["a"] := by
  decide

/-- C3 (amended): when an exception is raised while parsing a line, the
reader catches it at the file boundary, prints a message, and returns the
result accumulated from the lines *before* the failing line (so an empty
result only when nothing parsed before the failure): shown for the `.wts`
reader (weights and count so far) and the `.pl` reader (fixed instances and
type counts so far). -/
theorem C3_reader_returns_accumulated (pre : List String) (raw : String) (post : List String)
    (st : bookshelf_analyzer.WtsSt) (instances : List (String × String))
    (pre2 : List String) (raw2 : String) (post2 : List String) (st2 : bookshelf_analyzer.PlSt)
    (h1 : runE bookshelf_analyzer.wtsStep ⟨[], 0⟩ pre = .ok st)
    (h2 : bookshelf_analyzer.classifyWts raw = .abort)
    (h3 : runE (bookshelf_analyzer.plStep instances) ⟨[], []⟩ pre2 = .ok st2)
    (h4 : bookshelf_analyzer.classifyPl raw2 = .abort) :
    bookshelf_analyzer.parse_wts_file (pre ++ raw :: post) = (st.weights, st.weight_count) ∧
    bookshelf_analyzer.parse_pl_file instances (pre2 ++ raw2 :: post2) =
      (st2.fixed_instances, st2.fixed_types) := by
  constructor
  · simp only [bookshelf_analyzer.parse_wts_file]
    rw [runE_append, h1]
    simp only [runE, bookshelf_analyzer.wtsStep, h2, finalSt]
  · simp only [bookshelf_analyzer.parse_pl_file]
    rw [runE_append, h3]
    simp only [runE, bookshelf_analyzer.plStep, h4, finalSt]

/-- Witness for C3's amended theorem on the counterexample inputs. -/
theorem C3_reader_returns_accumulated_witness :
    bookshelf_analyzer.classifyWts "n2 abc" = .abort ∧
    bookshelf_analyzer.parse_wts_file ["n1 1.0", "n2 abc"] = ([("n1", 1)], 1) ∧
    bookshelf_analyzer.parse_pl_file [] ["a 1 2 0 FIXED", "b x 2 0 FIXED"] =
      ([("a", ⟨1, 2, 0⟩)], [("UNKNOWN", 1)]) := by
  refine ⟨by decide, ?_, ?_⟩
  · exact (C3_reader_returns_accumulated ["n1 1.0"] "n2 abc" [] ⟨[("n1", 1)], 1⟩ []
      ["a 1 2 0 FIXED"] "b x 2 0 FIXED" [] ⟨[("a", ⟨1, 2, 0⟩)], [("UNKNOWN", 1)]⟩
      (by decide) (by decide) (by decide) (by decide)).1
  · exact (C3_reader_returns_accumulated ["n1 1.0"] "n2 abc" [] ⟨[("n1", 1)], 1⟩ []
      ["a 1 2 0 FIXED"] "b x 2 0 FIXED" [] ⟨[("a", ⟨1, 2, 0⟩)], [("UNKNOWN", 1)]⟩
      (by decide) (by decide) (by decide) (by decide)).2

/-- C4: for an `.scl` file of a `SITEMAP` header followed by N well-formed
`<x> <y> <site-type>` entry lines, the full-detail reader stores
`min(N, 10000)` SiteMapEntry records while the streaming counter's tally
sums to exactly N; the two agree for N ≤ 10000 and the stored count is
strictly smaller for N > 10000. -/
theorem C4_sitemap_cap_vs_exact (hdr : String) (entries : List String)
    (hhdr : pyStartswith (pyStrip hdr) "SITEMAP" = true)
    (hwf : entries.all bookshelf_analyzer.wfEntry = true) :
    (bookshelf_analyzer.parse_scl_file (hdr :: entries)).2.2.1.length =
        min entries.length 10000 ∧
    sumC (bookshelf_analyzer.count_site_types_from_scl (hdr :: entries)) = entries.length ∧
    (entries.length ≤ 10000 →
      (bookshelf_analyzer.parse_scl_file (hdr :: entries)).2.2.1.length =
        sumC (bookshelf_analyzer.count_site_types_from_scl (hdr :: entries))) ∧
    (10000 < entries.length →
      (bookshelf_analyzer.parse_scl_file (hdr :: entries)).2.2.1.length <
        sumC (bookshelf_analyzer.count_site_types_from_scl (hdr :: entries))) := by
  obtain ⟨d, hstep⟩ := sclStep_sitemapHdr bookshelf_analyzer.sclInit hdr hhdr
  obtain ⟨st2, hrun2, hlen⟩ := scl_run_wf entries
    { bookshelf_analyzer.sclInit with in_sitemap := true, sitemap_dimensions := d }
    hwf rfl rfl rfl (by simp [bookshelf_analyzer.sclInit])
  have hp : (bookshelf_analyzer.parse_scl_file (hdr :: entries)).2.2.1 = st2.site_map := by
    simp only [bookshelf_analyzer.parse_scl_file, runE, hstep, hrun2, finalSt]
  have hstored : (bookshelf_analyzer.parse_scl_file (hdr :: entries)).2.2.1.length =
      min entries.length 10000 := by
    rw [hp, hlen]
    simp [bookshelf_analyzer.sclInit]
  have hcnt : sumC (bookshelf_analyzer.count_site_types_from_scl (hdr :: entries)) =
      entries.length := by
    simp only [bookshelf_analyzer.count_site_types_from_scl, List.foldl_cons,
      countStep_sitemapHdr _ hdr hhdr]
    have hrw := count_run_wf entries ⟨true, []⟩ hwf rfl
    simpa [sumC] using hrw
  refine ⟨hstored, hcnt, fun hle => ?_, fun hgt => ?_⟩
  · rw [hstored, hcnt, Nat.min_eq_left hle]
  · rw [hstored, hcnt, Nat.min_eq_right (Nat.le_of_lt hgt)]
    exact hgt

/-- Witness for C4 at a header line and two well-formed entries. -/
theorem C4_sitemap_cap_vs_exact_witness :
    (["0 0 SLICE", "1 0 DSP"].all bookshelf_analyzer.wfEntry = true) ∧
    (bookshelf_analyzer.parse_scl_file ("SITEMAP 3 3" :: ["0 0 SLICE", "1 0 DSP"])).2.2.1.length =
        min (["0 0 SLICE", "1 0 DSP"] : List String).length 10000 ∧
    sumC (bookshelf_analyzer.count_site_types_from_scl
        ("SITEMAP 3 3" :: ["0 0 SLICE", "1 0 DSP"])) =
      (["0 0 SLICE", "1 0 DSP"] : List String).length :=
  ⟨by decide,
    (C4_sitemap_cap_vs_exact "SITEMAP 3 3" ["0 0 SLICE", "1 0 DSP"] (by decide) (by decide)).1,
    (C4_sitemap_cap_vs_exact "SITEMAP 3 3" ["0 0 SLICE", "1 0 DSP"] (by decide) (by decide)).2.1⟩

theorem fmt2_two_decimals (num : Int) (den : Nat) :
    ∃ t u, bookshelf_analyzer.fmt2 num den = t ++ "." ++ u ∧ u.length = 2 := by
  refine ⟨_, _, rfl, ?_⟩
  exact pad2_length _ (Nat.mod_lt _ (by norm_num))

/-- C5: when the nets mapping is non-empty the report's NETS section prints
the average pin count to exactly two decimal places together with the min
and the max; for pin counts [2, 4, 6] the lines read
`Average Pins per Net: 4.00`, `Min Pins per Net: 2`, `Max Pins per Net: 6`. -/
theorem C5_nets_report_statistics (nets : List (String × bookshelf_analyzer.NetData))
    (net_count : Nat) (hne : nets ≠ []) :
    (bookshelf_analyzer.netsSection nets net_count =
      ["NETS:", bookshelf_analyzer.dashes30, "Total Nets: " ++ toString net_count,
       "Average Pins per Net: " ++
         bookshelf_analyzer.fmt2 (nets.map (fun p => p.2.pin_count)).sum
           (nets.map (fun p => p.2.pin_count)).length,
       "Min Pins per Net: " ++
         toString (bookshelf_analyzer.listMin (nets.map (fun p => p.2.pin_count))),
       "Max Pins per Net: " ++
         toString (bookshelf_analyzer.listMax (nets.map (fun p => p.2.pin_count))),
       ""]) ∧
    (∃ t u, bookshelf_analyzer.fmt2 (nets.map (fun p => p.2.pin_count)).sum
        (nets.map (fun p => p.2.pin_count)).length = t ++ "." ++ u ∧ u.length = 2) ∧
    bookshelf_analyzer.netsSection
        [("A", ⟨"A", 2, []⟩), ("B", ⟨"B", 4, []⟩), ("C", ⟨"C", 6, []⟩)] 3 =
      ["NETS:", bookshelf_analyzer.dashes30, "Total Nets: 3", "Average Pins per Net: 4.00",
       "Min Pins per Net: 2", "Max Pins per Net: 6", ""] := by
  refine ⟨?_, fmt2_two_decimals _ _, by decide⟩
  simp [bookshelf_analyzer.netsSection, hne]

/-- Witness for C5 at the three-net example. -/
theorem C5_nets_report_statistics_witness :
    (([("A", (⟨"A", 2, []⟩ : bookshelf_analyzer.NetData)), ("B", ⟨"B", 4, []⟩),
        ("C", ⟨"C", 6, []⟩)] : List (String × bookshelf_analyzer.NetData)) ≠ []) ∧
    (∃ t u, bookshelf_analyzer.fmt2 12 3 = t ++ "." ++ u ∧ u.length = 2) :=
  ⟨by decide,
    (C5_nets_report_statistics
      [("A", ⟨"A", 2, []⟩), ("B", ⟨"B", 4, []⟩), ("C", ⟨"C", 6, []⟩)] 3 (by decide)).2.1⟩

/-- C6: in the Fixed-Elements Visualizer an out-of-bounds fixed instance is
never drawn, yet the statistics overlay's `Total Fixed Instances` value is
the length of the full fixed-instances list, so it still counts it. -/
theorem C6_out_of_bounds_not_drawn (width height : Int)
    (fi : List fixed_elements_visualizer.FixedInst)
    (drawn : List fixed_elements_visualizer.FixedInst) (stats : String)
    (inst : fixed_elements_visualizer.FixedInst)
    (hviz : fixed_elements_visualizer.create_fixed_elements_visualization width height fi =
      some (drawn, stats))
    (_hmem : inst ∈ fi)
    (hoob : inst.x < 0 ∨ width ≤ inst.x ∨ inst.y < 0 ∨ height ≤ inst.y) :
    inst ∉ drawn ∧ stats = "Total Fixed Instances: " ++ toString fi.length := by
  unfold fixed_elements_visualizer.create_fixed_elements_visualization at hviz
  split at hviz
  · exact absurd hviz (by simp)
  · split at hviz
    · exact absurd hviz (by simp)
    · simp only [Option.some.injEq, Prod.mk.injEq] at hviz
      obtain ⟨h1, h2⟩ := hviz
      subst h1
      subst h2
      constructor
      · intro hin
        unfold fixed_elements_visualizer.drawnRects at hin
        rw [List.mem_filter] at hin
        have hb := hin.2
        unfold fixed_elements_visualizer.inBounds at hb
        simp only [Bool.and_eq_true, decide_eq_true_eq] at hb
        obtain ⟨⟨⟨hb1, hb2⟩, hb3⟩, hb4⟩ := hb
        rcases hoob with h | h | h | h <;> omega
      · rfl

/-- Witness for C6: a 4×4 fabric with one instance at x = -1 (never drawn,
still counted) and one in-bounds instance. -/
theorem C6_out_of_bounds_not_drawn_witness :
    ((⟨"a", -1, 0, 0⟩ : fixed_elements_visualizer.FixedInst) ∈
      ([⟨"a", -1, 0, 0⟩, ⟨"b", 1, 1, 0⟩] : List fixed_elements_visualizer.FixedInst)) ∧
    ((⟨"a", -1, 0, 0⟩ : fixed_elements_visualizer.FixedInst) ∉
      ([⟨"b", 1, 1, 0⟩] : List fixed_elements_visualizer.FixedInst)) ∧
    "Total Fixed Instances: 2" =
      "Total Fixed Instances: " ++
        toString ([⟨"a", -1, 0, 0⟩, ⟨"b", 1, 1, 0⟩] :
          List fixed_elements_visualizer.FixedInst).length := by
  have h := C6_out_of_bounds_not_drawn 4 4 [⟨"a", -1, 0, 0⟩, ⟨"b", 1, 1, 0⟩]
    [⟨"b", 1, 1, 0⟩] "Total Fixed Instances: 2" ⟨"a", -1, 0, 0⟩
    (by decide) (by decide) (by decide)
  exact ⟨by decide, h.1, h.2⟩

/-- C7: every captured FIXED placement contributes one count to the
fixed-type distribution (their sum is the number of captured lines, so none
is dropped); each captured instance absent from the `.nodes` map contributes
under `UNKNOWN` (so `UNKNOWN`'s count is at least the number of absent
names); and with an empty `.nodes` map every captured instance is counted
under `UNKNOWN`. -/
theorem C7_unknown_fixed_type (instances : List (String × String)) (lines : List String) :
    sumC (bookshelf_analyzer.parse_pl_file instances lines).2 =
      (bookshelf_analyzer.capturedFixedNames lines).length ∧
    ((bookshelf_analyzer.capturedFixedNames lines).filter
        (fun n => (alGet? n instances).isNone)).length ≤
      cGet "UNKNOWN" (bookshelf_analyzer.parse_pl_file instances lines).2 ∧
    cGet "UNKNOWN" (bookshelf_analyzer.parse_pl_file [] lines).2 =
      (bookshelf_analyzer.capturedFixedNames lines).length := by
  refine ⟨?_, ?_, ?_⟩
  · simp only [bookshelf_analyzer.parse_pl_file]
    have h := pl_run_sum instances lines ⟨[], []⟩
    simpa [sumC] using h
  · simp only [bookshelf_analyzer.parse_pl_file]
    have h := pl_run_cGet instances "UNKNOWN" lines ⟨[], []⟩
    have himp : ∀ a, ((alGet? a instances).isNone = true) →
        ((bookshelf_analyzer.plType instances a == "UNKNOWN") = true) := by
      intro a ha
      rw [Option.isNone_iff_eq_none] at ha
      simp [bookshelf_analyzer.plType, ha]
    have hmono := filter_length_mono _ _ himp (bookshelf_analyzer.capturedFixedNames lines)
    rw [h]
    simp only [cGet, alGet?, Option.getD_none]
    omega
  · simp only [bookshelf_analyzer.parse_pl_file]
    have h := pl_run_cGet [] "UNKNOWN" lines ⟨[], []⟩
    rw [h]
    have hall : ∀ n ∈ bookshelf_analyzer.capturedFixedNames lines,
        (bookshelf_analyzer.plType [] n == "UNKNOWN") = true := by
      intro n _
      simp [bookshelf_analyzer.plType, alGet?]
    rw [List.filter_eq_self.mpr hall]
    simp [cGet, alGet?]

/-- C8: the Site-Map Visualizer draws its legend exactly when the number of
distinct discovered site types is at most 10: shown with 10 distinct types,
omitted with 11. -/
theorem C8_legend_threshold :
    (∀ lines : List String,
      (scl_visualizer.legendShown (scl_visualizer.parse_scl_file lines).2.2.2 = true ↔
        ((scl_visualizer.parse_scl_file lines).2.2.1.map (fun t => t.2.2)).toFinset.card ≤ 10)) ∧
    scl_visualizer.legendShown (scl_visualizer.parse_scl_file
      ["0 0 T00", "0 0 T01", "0 0 T02", "0 0 T03", "0 0 T04", "0 0 T05", "0 0 T06",
       "0 0 T07", "0 0 T08", "0 0 T09", "0 0 T10"]).2.2.2 = false ∧
    scl_visualizer.legendShown (scl_visualizer.parse_scl_file
      ["0 0 T00", "0 0 T01", "0 0 T02", "0 0 T03", "0 0 T04", "0 0 T05", "0 0 T06",
       "0 0 T07", "0 0 T08", "0 0 T09"]).2.2.2 = true := by
  refine ⟨?_, by decide, by decide⟩
  intro lines
  unfold scl_visualizer.parse_scl_file
  cases hd : scl_visualizer.svDims lines with
  | error u => simp [scl_visualizer.legendShown]
  | ok wh =>
    obtain ⟨w, h⟩ := wh
    simp only
    unfold scl_visualizer.legendShown scl_visualizer.svTypes
    rw [decide_eq_true_eq, length_foldl_insKey_toFinset]

/-- C9: the `.nets` reader's net_count counts processed valid header lines
while name collisions overwrite mapping entries, so the mapping size is at
most net_count, with strict inequality exactly when the processed header
names repeat — `Total Nets` reports header lines, not distinct nets. -/
theorem C9_net_count_vs_distinct (lines : List String) :
    (bookshelf_analyzer.parse_nets_file lines).2 =
      (bookshelf_analyzer.processedNetNames lines).length ∧
    (bookshelf_analyzer.parse_nets_file lines).1.length ≤
      (bookshelf_analyzer.parse_nets_file lines).2 ∧
    ((bookshelf_analyzer.parse_nets_file lines).1.length <
        (bookshelf_analyzer.parse_nets_file lines).2 ↔
      ¬ (bookshelf_analyzer.processedNetNames lines).Nodup) := by
  have hcnt : (bookshelf_analyzer.parse_nets_file lines).2 =
      (bookshelf_analyzer.processedNetNames lines).length := by
    simp only [bookshelf_analyzer.parse_nets_file]
    have h := nets_run_count lines ⟨[], none, 0⟩
    simpa using h
  have hkeys : (bookshelf_analyzer.parse_nets_file lines).1.map Prod.fst =
      (bookshelf_analyzer.processedNetNames lines).foldl insKey [] := by
    simp only [bookshelf_analyzer.parse_nets_file]
    have h := nets_run_keys lines ⟨[], none, 0⟩
    simpa using h
  have hlen1 : (bookshelf_analyzer.parse_nets_file lines).1.length =
      ((bookshelf_analyzer.processedNetNames lines).foldl insKey []).length := by
    rw [← hkeys, List.length_map]
  have hle := foldl_insKey_le (bookshelf_analyzer.processedNetNames lines) []
  have hiff := foldl_insKey_eq_iff (bookshelf_analyzer.processedNetNames lines) []
  refine ⟨hcnt, ?_, ?_⟩
  · rw [hlen1, hcnt]
    simpa using hle
  · rw [hlen1, hcnt]
    constructor
    · intro hlt hnd
      have heq := hiff.mpr ⟨hnd, by simp⟩
      simp only [List.length_nil, Nat.zero_add] at heq
      omega
    · intro hnnd
      have hle2 : ((bookshelf_analyzer.processedNetNames lines).foldl insKey []).length ≤
          (bookshelf_analyzer.processedNetNames lines).length := by simpa using hle
      rcases Nat.lt_or_ge ((bookshelf_analyzer.processedNetNames lines).foldl insKey []).length
          (bookshelf_analyzer.processedNetNames lines).length with hl | hg
      · exact hl
      · exfalso
        have heq : ((bookshelf_analyzer.processedNetNames lines).foldl insKey []).length =
            (bookshelf_analyzer.processedNetNames lines).length := Nat.le_antisymm hle2 hg
        exact hnnd (hiff.mp (by simpa using heq)).1

/-- C10: in the `.pl` reader duplicate FIXED lines overwrite coordinates but
each still bumps a type counter, so the type counters sum to at least the
number of stored fixed instances, with equality exactly when the captured
instance names are pairwise distinct. -/
theorem C10_fixed_type_counts (instances : List (String × String)) (lines : List String) :
    (bookshelf_analyzer.parse_pl_file instances lines).1.length ≤
      sumC (bookshelf_analyzer.parse_pl_file instances lines).2 ∧
    (sumC (bookshelf_analyzer.parse_pl_file instances lines).2 =
        (bookshelf_analyzer.parse_pl_file instances lines).1.length ↔
      (bookshelf_analyzer.capturedFixedNames lines).Nodup) := by
  have hsum : sumC (bookshelf_analyzer.parse_pl_file instances lines).2 =
      (bookshelf_analyzer.capturedFixedNames lines).length := by
    simp only [bookshelf_analyzer.parse_pl_file]
    have h := pl_run_sum instances lines ⟨[], []⟩
    simpa [sumC] using h
  have hkeys : (bookshelf_analyzer.parse_pl_file instances lines).1.map Prod.fst =
      (bookshelf_analyzer.capturedFixedNames lines).foldl insKey [] := by
    simp only [bookshelf_analyzer.parse_pl_file]
    have h := pl_run_keys instances lines ⟨[], []⟩
    simpa using h
  have hlen1 : (bookshelf_analyzer.parse_pl_file instances lines).1.length =
      ((bookshelf_analyzer.capturedFixedNames lines).foldl insKey []).length := by
    rw [← hkeys, List.length_map]
  have hle := foldl_insKey_le (bookshelf_analyzer.capturedFixedNames lines) []
  have hiff := foldl_insKey_eq_iff (bookshelf_analyzer.capturedFixedNames lines) []
  constructor
  · rw [hlen1, hsum]
    simpa using hle
  · rw [hlen1, hsum]
    constructor
    · intro heq
      exact (hiff.mp (by simpa using heq.symm)).1
    · intro hnd
      have heq := hiff.mpr ⟨hnd, by simp⟩
      simp only [List.length_nil, Nat.zero_add] at heq
      omega

end claims
